import Mathlib

/-!
Verification of the data-ngin ingestion pipeline against its specification.

Each definition is a shallow embedding of a function of the repository:

* `DataNgin.roll_factors`, `DataNgin.cumulative_adjustment` and
  `DataNgin.apply_back_adjustment` embed
  `DatabentoCleaner.apply_back_adjustment`
  (data/modules/cleaner/databento_cleaner.py, lines 199-238);
* `DataNgin.transform_data` embeds `DatabentoCleaner.transform_data`
  (same file, lines 151-197); timestamps are modelled as integers
  (nanoseconds since the UTC epoch), prices as rationals, volumes as
  integers, so the UTC coercion and the dtype coercions of the source
  are identities on the model and the remaining steps are the duplicate
  check, the sort by time and the back-adjustment.
-/

namespace DataNgin

/-- Row of an OHLCV frame as it enters the transformation step: a UTC
timestamp in nanoseconds, the contract symbol, rational prices and an
integer volume. -/
structure SRow where
  time : Int
  symbol : String
  open_ : Rat
  high : Rat
  low : Rat
  close : Rat
  volume : Int
deriving DecidableEq, Inhabited, Repr

/-- Row produced by the back-adjustment engine: the original fields plus
the four back-adjusted price columns added by the source. -/
structure ARow where
  time : Int
  symbol : String
  open_ : Rat
  high : Rat
  low : Rat
  close : Rat
  volume : Int
  back_adjusted_open : Rat
  back_adjusted_high : Rat
  back_adjusted_low : Rat
  back_adjusted_close : Rat
deriving DecidableEq, Inhabited, Repr

/-- Positional row access, modelling `data.loc[i, col]` after the
`reset_index(drop=True)` of the source; the source only accesses indices
that are in range. -/
def rowAt (data : List SRow) (i : Nat) : SRow :=
  data.getD i default

/-- Roll detection loop of `apply_back_adjustment`: for every index
`i` in `range(1, len(data))`, a roll is recorded when the symbol changes
at `i` and the volume at `i` exceeds the volume at `i - 1`; the recorded
adjustment is the close at `i - 1` minus the open at `i`. -/
def roll_factors (data : List SRow) : List (Nat × Rat) :=
  (List.range' 1 (data.length - 1)).filterMap fun i =>
    if (rowAt data i).symbol ≠ (rowAt data (i - 1)).symbol ∧
        (rowAt data i).volume > (rowAt data (i - 1)).volume then
      some (i, (rowAt data (i - 1)).close - (rowAt data i).open_)
    else
      none

/-- Cumulative adjustment of row `i`: the sum of the adjustments of all
roll points whose index is strictly greater than `i`, as in the source
expression `sum(adj for (roll_idx, adj) in roll_factors if roll_idx > i)`. -/
def cumulative_adjustment (rf : List (Nat × Rat)) (i : Nat) : Rat :=
  ((rf.filter fun p => i < p.1).map Prod.snd).sum

/-- Embedding of `DatabentoCleaner.apply_back_adjustment`: compute the
roll factors, then give every row the four back-adjusted columns obtained
by adding its cumulative adjustment to each price; time, symbol and
volume are copied through unchanged. -/
def apply_back_adjustment (data : List SRow) : List ARow :=
  let rf := roll_factors data
  data.enum.map fun p =>
    let c := cumulative_adjustment rf p.1
    { time := p.2.time
      symbol := p.2.symbol
      open_ := p.2.open_
      high := p.2.high
      low := p.2.low
      close := p.2.close
      volume := p.2.volume
      back_adjusted_open := p.2.open_ + c
      back_adjusted_high := p.2.high + c
      back_adjusted_low := p.2.low + c
      back_adjusted_close := p.2.close + c }

/-- Embedding of `DatabentoCleaner.transform_data` on the typed model:
the UTC conversion and the dtype coercions are identities here, the
duplicate-timestamp check produces the returned warning flag (the source
only logs a warning and removes nothing), the rows are sorted ascending
by time, and the back-adjustment engine is applied. -/
def transform_data (data : List SRow) : Bool × List ARow :=
  let dupWarning : Bool := decide (¬ (data.map fun r => r.time).Nodup)
  let sorted := data.mergeSort fun a b => decide (a.time ≤ b.time)
  (dupWarning, apply_back_adjustment sorted)

/-- Predicate of the specification: index `i` is a roll point of `data`
when `1 ≤ i < length`, the symbol changes between `i - 1` and `i`, and
the volume strictly increases there. -/
def IsRollPoint (data : List SRow) (i : Nat) : Prop :=
  1 ≤ i ∧ i < data.length ∧
    (rowAt data i).symbol ≠ (rowAt data (i - 1)).symbol ∧
    (rowAt data (i - 1)).volume < (rowAt data i).volume

instance (data : List SRow) (i : Nat) : Decidable (IsRollPoint data i) := by
  unfold IsRollPoint; infer_instance

/-- Adjustment the specification assigns to a roll point at `i`. -/
def adjustmentAt (data : List SRow) (i : Nat) : Rat :=
  (rowAt data (i - 1)).close - (rowAt data i).open_

/-- Cumulative adjustment of row `j` as the specification states it: the
sum of the adjustments of all roll points with index strictly greater
than `j`, written directly over the index range with the roll predicate. -/
def cumulativeAdjustmentSpec (data : List SRow) (j : Nat) : Rat :=
  (((List.range data.length).filter fun i => decide (j < i ∧ IsRollPoint data i)).map
    (adjustmentAt data)).sum

theorem filterMap_ite_eq_filter_map {α : Type} (g : Nat → α) (p : Nat → Prop)
    [DecidablePred p] (l : List Nat) :
    (l.filterMap fun i => if p i then some (i, g i) else none) =
      (l.filter fun i => decide (p i)).map fun i => (i, g i) := by
  induction l with
  | nil => rfl
  | cons a l ih =>
    by_cases h : p a <;> simp [List.filterMap_cons, List.filter_cons, h, ih]

theorem range_filter_rollPoint (data : List SRow) :
    ((List.range data.length).filter fun i => decide (IsRollPoint data i)) =
      (List.range' 1 (data.length - 1)).filter fun i =>
        decide ((rowAt data i).symbol ≠ (rowAt data (i - 1)).symbol ∧
          (rowAt data i).volume > (rowAt data (i - 1)).volume) := by
  cases data with
  | nil => rfl
  | cons a l =>
    rw [List.range_eq_range']
    have h1 : (a :: l).length = l.length + 1 := rfl
    rw [h1, List.range'_succ, List.filter_cons]
    have h0 : decide (IsRollPoint (a :: l) 0) = false := by
      simp [IsRollPoint]
    rw [h0]
    simp only [Nat.add_sub_cancel, cond_false]
    apply List.filter_congr
    intro i hi
    rw [List.mem_range'_1] at hi
    have hi1 : 1 ≤ i := hi.1
    have hi2 : i < (a :: l).length := by
      have := hi.2
      simp only [List.length_cons]
      omega
    rw [decide_eq_decide]
    constructor
    · intro h
      exact ⟨h.2.2.1, h.2.2.2⟩
    · intro h
      exact ⟨hi1, hi2, h.1, h.2⟩

theorem roll_factors_eq (data : List SRow) :
    roll_factors data =
      ((List.range data.length).filter fun i => decide (IsRollPoint data i)).map
        fun i => (i, adjustmentAt data i) := by
  rw [range_filter_rollPoint]
  unfold roll_factors adjustmentAt
  exact filterMap_ite_eq_filter_map _ _ _

theorem cumulative_adjustment_roll_factors (data : List SRow) (j : Nat) :
    cumulative_adjustment (roll_factors data) j = cumulativeAdjustmentSpec data j := by
  rw [cumulative_adjustment, roll_factors_eq, cumulativeAdjustmentSpec, List.filter_map,
    List.map_map]
  have hc : ((fun p : Nat × Rat => decide (j < p.1)) ∘ fun i => (i, adjustmentAt data i)) =
      fun i => decide (j < i) := rfl
  rw [hc, List.filter_filter]
  have hp : (fun i => decide (j < i) && decide (IsRollPoint data i)) =
      fun i => decide (j < i ∧ IsRollPoint data i) := by
    funext i
    by_cases h1 : j < i <;> by_cases h2 : IsRollPoint data i <;> simp [h1, h2]
  rw [hp]
  rfl

theorem apply_back_adjustment_length (data : List SRow) :
    (apply_back_adjustment data).length = data.length := by
  simp [apply_back_adjustment]

theorem apply_back_adjustment_getD (data : List SRow) (j : Nat) (hj : j < data.length) :
    (apply_back_adjustment data).getD j default =
      { time := (rowAt data j).time
        symbol := (rowAt data j).symbol
        open_ := (rowAt data j).open_
        high := (rowAt data j).high
        low := (rowAt data j).low
        close := (rowAt data j).close
        volume := (rowAt data j).volume
        back_adjusted_open := (rowAt data j).open_ + cumulative_adjustment (roll_factors data) j
        back_adjusted_high := (rowAt data j).high + cumulative_adjustment (roll_factors data) j
        back_adjusted_low := (rowAt data j).low + cumulative_adjustment (roll_factors data) j
        back_adjusted_close :=
          (rowAt data j).close + cumulative_adjustment (roll_factors data) j } := by
  have hj2 : j < (apply_back_adjustment data).length := by
    rw [apply_back_adjustment_length]; exact hj
  rw [List.getD_eq_getElem _ _ hj2]
  unfold apply_back_adjustment
  have hj3 : j < (data.enum.map fun p =>
      let c := cumulative_adjustment (roll_factors data) p.1
      ARow.mk p.2.time p.2.symbol p.2.open_ p.2.high p.2.low p.2.close p.2.volume
        (p.2.open_ + c) (p.2.high + c) (p.2.low + c) (p.2.close + c)).length := by
    simpa using hj
  rw [List.getElem_map]
  rw [List.getElem_enum]
  rw [rowAt, List.getD_eq_getElem _ _ hj]

theorem apply_back_adjustment_map_time (data : List SRow) :
    (apply_back_adjustment data).map (fun r => r.time) = data.map fun r => r.time := by
  unfold apply_back_adjustment
  rw [List.map_map]
  have h : ((fun r : ARow => r.time) ∘ fun p : Nat × SRow =>
      let c := cumulative_adjustment (roll_factors data) p.1
      ARow.mk p.2.time p.2.symbol p.2.open_ p.2.high p.2.low p.2.close p.2.volume
        (p.2.open_ + c) (p.2.high + c) (p.2.low + c) (p.2.close + c)) =
      (fun r : SRow => r.time) ∘ Prod.snd := rfl
  rw [h, ← List.map_map, List.enum_map_snd]

theorem apply_back_adjustment_map_symbol (data : List SRow) :
    (apply_back_adjustment data).map (fun r => r.symbol) = data.map fun r => r.symbol := by
  unfold apply_back_adjustment
  rw [List.map_map]
  have h : ((fun r : ARow => r.symbol) ∘ fun p : Nat × SRow =>
      let c := cumulative_adjustment (roll_factors data) p.1
      ARow.mk p.2.time p.2.symbol p.2.open_ p.2.high p.2.low p.2.close p.2.volume
        (p.2.open_ + c) (p.2.high + c) (p.2.low + c) (p.2.close + c)) =
      (fun r : SRow => r.symbol) ∘ Prod.snd := rfl
  rw [h, ← List.map_map, List.enum_map_snd]

/-- Example series with three rows and one roll at index 2: the symbol
changes there and the volume rises from 90 to 120, so the recorded
adjustment is the previous close 12 minus the new open 8. -/
def exC1 : List SRow :=
  [⟨0, "ESH", 10, 11, 9, 10, 100⟩,
   ⟨1, "ESH", 10, 11, 9, 12, 90⟩,
   ⟨2, "ESM", 8, 9, 7, 8, 120⟩]

/-- C1: for every OHLCV series sorted ascending by time, the engine
records a roll factor exactly at the indices where the symbol changes
and the volume strictly increases, with adjustment equal to the previous
close minus the new open; every output row keeps its time, symbol and
volume, and each back-adjusted price equals the original price plus the
sum of the adjustments of the roll points with index strictly greater
than the row index, so rows at or after the last roll point get zero
adjustment. -/
theorem back_adjustment_spec (data : List SRow)
    (hsorted : List.Pairwise (fun a b : SRow => a.time ≤ b.time) data)
    (j : Nat) (hj : j < data.length) :
    (apply_back_adjustment data).length = data.length ∧
    roll_factors data =
      ((List.range data.length).filter fun i => decide (IsRollPoint data i)).map
        (fun i => (i, adjustmentAt data i)) ∧
    ((apply_back_adjustment data).getD j default).time = (rowAt data j).time ∧
    ((apply_back_adjustment data).getD j default).symbol = (rowAt data j).symbol ∧
    ((apply_back_adjustment data).getD j default).volume = (rowAt data j).volume ∧
    ((apply_back_adjustment data).getD j default).back_adjusted_open =
      (rowAt data j).open_ + cumulativeAdjustmentSpec data j ∧
    ((apply_back_adjustment data).getD j default).back_adjusted_high =
      (rowAt data j).high + cumulativeAdjustmentSpec data j ∧
    ((apply_back_adjustment data).getD j default).back_adjusted_low =
      (rowAt data j).low + cumulativeAdjustmentSpec data j ∧
    ((apply_back_adjustment data).getD j default).back_adjusted_close =
      (rowAt data j).close + cumulativeAdjustmentSpec data j ∧
    ((∀ i, IsRollPoint data i → i ≤ j) → cumulativeAdjustmentSpec data j = 0) := by
  rw [apply_back_adjustment_getD data j hj]
  refine ⟨apply_back_adjustment_length data, roll_factors_eq data, rfl, rfl, rfl,
    ?_, ?_, ?_, ?_, ?_⟩
  · rw [cumulative_adjustment_roll_factors]
  · rw [cumulative_adjustment_roll_factors]
  · rw [cumulative_adjustment_roll_factors]
  · rw [cumulative_adjustment_roll_factors]
  · intro h
    have hnil : ((List.range data.length).filter fun i =>
        decide (j < i ∧ IsRollPoint data i)) = [] := by
      rw [List.filter_eq_nil_iff]
      intro i _
      simp only [decide_eq_true_eq, not_and]
      intro hji hroll
      exact absurd (h i hroll) (by omega)
    rw [cumulativeAdjustmentSpec, hnil]
    rfl

/-- Witness for the back-adjustment theorem at the concrete series
`exC1` and row index 0. -/
theorem back_adjustment_spec_witness :
    ((apply_back_adjustment exC1).getD 0 default).back_adjusted_close =
      (rowAt exC1 0).close + cumulativeAdjustmentSpec exC1 0 :=
  (back_adjustment_spec exC1 (by decide) 0 (by decide)).2.2.2.2.2.2.2.2.1

/-- Series of the specification example: one roll at index 5, with the
old contract closing at 100 on row 4 and the new contract opening at 98
on row 5, the volume rising across the roll. -/
def exC2 : List SRow :=
  [⟨0, "ESH", 99, 101, 98, 100, 1000⟩,
   ⟨1, "ESH", 100, 101, 98, 100, 1000⟩,
   ⟨2, "ESH", 100, 101, 98, 100, 1000⟩,
   ⟨3, "ESH", 100, 101, 98, 100, 1000⟩,
   ⟨4, "ESH", 100, 101, 99, 100, 1000⟩,
   ⟨5, "ESM", 98, 99, 97, 98, 1500⟩]

/-- C2 failing input: on the specification example the code computes the
roll adjustment close(4) minus open(5) = +2 and adds it to rows 0 to 4,
so the back-adjusted close of row 4 is 102 while the back-adjusted open
of row 5 is 98: the series still has a price jump across the roll (the
gap is doubled from 2 to 4 instead of being removed). -/
theorem back_adjustment_price_jump :
    roll_factors exC2 = [(5, 2)] ∧
    ((apply_back_adjustment exC2).getD 4 default).back_adjusted_close = 102 ∧
    ((apply_back_adjustment exC2).getD 5 default).back_adjusted_open = 98 ∧
    ((apply_back_adjustment exC2).getD 4 default).back_adjusted_close ≠
      ((apply_back_adjustment exC2).getD 5 default).back_adjusted_open := by
  have e1 : ((apply_back_adjustment exC2).getD 4 default).back_adjusted_close = 102 := by
    with_unfolding_all rfl
  have e2 : ((apply_back_adjustment exC2).getD 5 default).back_adjusted_open = 98 := by
    with_unfolding_all rfl
  refine ⟨by with_unfolding_all rfl, e1, e2, ?_⟩
  rw [e1, e2]
  decide

theorem transform_data_length (data : List SRow) :
    (transform_data data).2.length = data.length := by
  rw [transform_data, apply_back_adjustment_length]
  exact (List.mergeSort_perm data _).length_eq

theorem transform_data_map_time_perm (data : List SRow) :
    ((transform_data data).2.map fun r => r.time).Perm (data.map fun r => r.time) := by
  rw [transform_data, apply_back_adjustment_map_time]
  exact (List.mergeSort_perm data _).map _

theorem transform_data_times_sorted (data : List SRow) :
    List.Pairwise (fun a b : Int => a ≤ b) ((transform_data data).2.map fun r => r.time) := by
  rw [transform_data, apply_back_adjustment_map_time]
  rw [List.pairwise_map]
  have h := @List.sorted_mergeSort SRow (fun a b : SRow => decide (a.time ≤ b.time))
    (fun a b c hab hbc => by
      simp only [decide_eq_true_eq] at hab hbc ⊢
      exact le_trans hab hbc)
    (fun a b => by
      simp only [Bool.or_eq_true, decide_eq_true_eq]
      exact le_total a.time b.time)
    data
  exact h.imp fun hab => of_decide_eq_true hab

/-- C9 amended: the transformation step sorts the rows ascending by time
but only non-strictly: the output has exactly as many rows as the input,
its multiset of timestamps is that of the input (duplicate timestamps
are never removed), the full time sequence and the time sequence of any
one symbol are non-decreasing, and the duplicate warning flag is set
exactly when the input has a duplicate timestamp. -/
theorem transform_data_sorted_duplicates_kept (data : List SRow) :
    (transform_data data).2.length = data.length ∧
    ((transform_data data).2.map fun r => r.time).Perm (data.map fun r => r.time) ∧
    List.Pairwise (fun a b : Int => a ≤ b) ((transform_data data).2.map fun r => r.time) ∧
    (∀ s : String, List.Pairwise (fun a b : Int => a ≤ b)
      (((transform_data data).2.filter fun r => decide (r.symbol = s)).map
        fun r => r.time)) ∧
    ((transform_data data).1 = true ↔ ¬ (data.map fun r => r.time).Nodup) := by
  refine ⟨transform_data_length data, transform_data_map_time_perm data,
    transform_data_times_sorted data, ?_, ?_⟩
  · intro s
    have hsub : (((transform_data data).2.filter fun r => decide (r.symbol = s)).map
        fun r => r.time).Sublist ((transform_data data).2.map fun r => r.time) :=
      (List.filter_sublist _).map _
    exact (transform_data_times_sorted data).sublist hsub
  · simp [transform_data]

/-- Input with two rows of the same symbol carrying the same timestamp. -/
def exC9 : List SRow :=
  [⟨5, "A", 1, 1, 1, 1, 10⟩, ⟨5, "A", 2, 2, 2, 2, 11⟩]

/-- C9 counterexample: on an input with a duplicate timestamp the
transformation keeps both rows (the duplicate is flagged, not removed),
so the rows of symbol A are not strictly time-ordered. -/
theorem transform_data_not_strictly_ordered :
    (transform_data exC9).1 = true ∧
    (transform_data exC9).2.length = 2 ∧
    ((transform_data exC9).2.map fun r => r.time) = [5, 5] ∧
    ¬ List.Pairwise (fun a b : Int => a < b)
      (((transform_data exC9).2.filter fun r => decide (r.symbol = "A")).map
        fun r => r.time) := by
  have hlen : (transform_data exC9).2.length = 2 := transform_data_length exC9
  have htimes : ((transform_data exC9).2.map fun r => r.time) = [5, 5] := by
    have hperm := transform_data_map_time_perm exC9
    have : (exC9.map fun r => r.time) = List.replicate 2 (5 : Int) := by decide
    rw [this] at hperm
    rw [show ([5, 5] : List Int) = List.replicate 2 5 from rfl, List.eq_replicate_iff]
    refine ⟨by simpa using hperm.length_eq, ?_⟩
    intro b hb
    exact List.eq_of_mem_replicate (hperm.mem_iff.mp hb)
  have hsym : ((transform_data exC9).2.filter fun r => decide (r.symbol = "A")) =
      (transform_data exC9).2 := by
    apply List.filter_eq_self.mpr
    intro r hr
    have hmap : ((transform_data exC9).2.map fun r => r.symbol).Perm
        (exC9.map fun r => r.symbol) := by
      rw [transform_data, apply_back_adjustment_map_symbol]
      exact (List.mergeSort_perm exC9 _).map _
    have hr2 : r.symbol ∈ (transform_data exC9).2.map fun r => r.symbol :=
      List.mem_map_of_mem _ hr
    have hr3 : r.symbol ∈ exC9.map fun r => r.symbol := hmap.mem_iff.mp hr2
    have : (exC9.map fun r => r.symbol) = ["A", "A"] := by decide
    rw [this] at hr3
    simp only [List.mem_cons, List.not_mem_nil, or_false, or_self] at hr3
    simp [hr3]
  refine ⟨by decide, hlen, htimes, ?_⟩
  rw [hsym, htimes]
  decide

/-- Configuration value as Python sees it: a string, a boolean or a
number. -/
inductive ConfigVal where
  | str (s : String)
  | bool (b : Bool)
  | num (q : Rat)
deriving DecidableEq, Repr

/-- Lookup with default on the missing-data section of the
configuration, modelling `dict.get(key, default)`. -/
def cfgGet (cfg : List (String × ConfigVal)) (k : String) (dflt : ConfigVal) : ConfigVal :=
  ((cfg.find? fun p => p.1 = k).map Prod.snd).getD dflt

/-- Python equality of a configuration value with the string literal
used by the source, `value == "True"`: in Python a boolean or a number
never equals a string, and string equality is exact, so only the string
value True compares equal. -/
def isTrueStr : ConfigVal → Bool
  | .str s => s == "True"
  | _ => false

/-- Gate of `handle_missing_data` for one strategy, embedding the source
condition `config.get("missing_data", {}).get(method, "False") == "True"`. -/
def strategyEnabled (cfg : List (String × ConfigVal)) (m : String) : Bool :=
  isTrueStr (cfgGet cfg m (ConfigVal.str "False"))

/-- Row of the raw frame entering the missing-data step: numeric fields
may be missing (pandas NaN is modelled as `none`). -/
structure MRow where
  time : Int
  symbol : String
  open_ : Option Rat
  high : Option Rat
  low : Option Rat
  close : Option Rat
  volume : Option Rat
deriving DecidableEq, Inhabited, Repr

/-- Drop every row that has a missing value in one of its columns,
modelling `DataFrame.dropna()`. -/
def dropNan (d : List MRow) : List MRow :=
  d.filter fun r =>
    r.open_.isSome && r.high.isSome && r.low.isSome && r.close.isSome && r.volume.isSome

/-- Forward fill of a single column: a missing entry takes the last
present value before it, if any. -/
def ffillCol : Option Rat → List (Option Rat) → List (Option Rat)
  | _, [] => []
  | c, x :: xs =>
    let y := match x with
      | some v => some v
      | none => c
    y :: ffillCol y xs

/-- Rebuild a frame from its rows and five transformed numeric columns. -/
def setCols : List MRow → List (Option Rat) → List (Option Rat) → List (Option Rat) →
    List (Option Rat) → List (Option Rat) → List MRow
  | r :: rs, a :: as, b :: bs, c :: cs, d :: ds, e :: es =>
    { r with open_ := a, high := b, low := c, close := d, volume := e } ::
      setCols rs as bs cs ds es
  | _, _, _, _, _, _ => []

/-- Apply one column transformation to each of the five numeric columns
of a frame. -/
def perColumn (f : List (Option Rat) → List (Option Rat)) (d : List MRow) : List MRow :=
  setCols d (f (d.map fun r => r.open_)) (f (d.map fun r => r.high))
    (f (d.map fun r => r.low)) (f (d.map fun r => r.close))
    (f (d.map fun r => r.volume))

/-- Forward fill of a frame, modelling `DataFrame.ffill()`. -/
def forward_fill (d : List MRow) : List MRow :=
  perColumn (ffillCol none) d

/-- Backward fill of a frame, modelling `DataFrame.bfill()`. -/
def backward_fill (d : List MRow) : List MRow :=
  perColumn (fun l => (ffillCol none l.reverse).reverse) d

/-- Linear interpolation of one column, modelling the default
`DataFrame.interpolate()`: an interior gap is filled linearly between
the nearest present values, a trailing gap takes the last present value,
a leading gap stays missing. -/
def interpCol (l : List (Option Rat)) : List (Option Rat) :=
  (List.range l.length).map fun i =>
    match l.getD i none with
    | some x => some x
    | none =>
      let prev := ((List.range i).filterMap fun j =>
        (l.getD j none).map fun v => (j, v)).getLast?
      let next := ((List.range' (i + 1) (l.length - i - 1)).filterMap fun j =>
        (l.getD j none).map fun v => (j, v)).head?
      match prev, next with
      | some (j, vj), some (k, vk) =>
        some (vj + (vk - vj) * (((i : Rat) - (j : Rat)) / ((k : Rat) - (j : Rat))))
      | some (_, vj), none => some vj
      | none, _ => none

/-- Interpolation of a frame, modelling `DataFrame.infer_objects().interpolate()`. -/
def interpolate (d : List MRow) : List MRow :=
  perColumn interpCol d

/-- Fill every missing value of the frame with a constant, modelling
`DataFrame.fillna(value)`. -/
def fillConst (q : Rat) (d : List MRow) : List MRow :=
  d.map fun r =>
    { r with
      open_ := some (r.open_.getD q)
      high := some (r.high.getD q)
      low := some (r.low.getD q)
      close := some (r.close.getD q)
      volume := some (r.volume.getD q) }

/-- Fill the missing entries of one column with an optional value; when
the value is absent the column is unchanged, as `fillna(NaN)` is. -/
def fillWith (m : Option Rat) (l : List (Option Rat)) : List (Option Rat) :=
  l.map fun x => match x with
    | some v => some v
    | none => m

/-- Mean of the present values of a column, modelling the
NaN-skipping `Series.mean()`; an all-missing column has no mean. -/
def meanOpt (l : List (Option Rat)) : Option Rat :=
  let vs := l.filterMap id
  if vs.length = 0 then none else some (vs.sum / (vs.length : Rat))

/-- Median of the present values of a column, modelling the
NaN-skipping `Series.median()`. -/
def medianOpt (l : List (Option Rat)) : Option Rat :=
  let vs := (l.filterMap id).mergeSort fun a b => decide (a ≤ b)
  if vs.length = 0 then none
  else if vs.length % 2 = 1 then some (vs.getD (vs.length / 2) 0)
  else some ((vs.getD (vs.length / 2 - 1) 0 + vs.getD (vs.length / 2) 0) / 2)

/-- Mean fill of a frame, modelling
`fillna(col.mean() for each numeric col)`. -/
def mean_fill (d : List MRow) : List MRow :=
  perColumn (fun l => fillWith (meanOpt l) l) d

/-- Median fill of a frame, modelling
`fillna(col.median() for each numeric col)`. -/
def median_fill (d : List MRow) : List MRow :=
  perColumn (fun l => fillWith (medianOpt l) l) d

/-- Numeric reading of the configured custom fill value; the source
passes the configuration value straight to `fillna`. -/
def asNum : ConfigVal → Rat
  | .num q => q
  | .bool b => if b then 1 else 0
  | .str _ => 0

/-- Custom fill value of the missing-data section, embedding
`config["missing_data"].get("custom_value", 0)`. -/
def customValue (cfg : List (String × ConfigVal)) : Rat :=
  asNum (cfgGet cfg "custom_value" (ConfigVal.num 0))

/-- Embedding of `DatabentoCleaner.handle_missing_data`: walk the
method switch in its declared order and apply a strategy exactly when
its configuration value under the missing-data section compares equal,
in the Python sense, to the string True. -/
def handle_missing_data (cfg : List (String × ConfigVal)) (d : List MRow) : List MRow :=
  let methods : List (String × (List MRow → List MRow)) :=
    [("drop_nan", dropNan),
     ("forward_fill", forward_fill),
     ("backward_fill", backward_fill),
     ("interpolate", interpolate),
     ("zero_fill", fillConst 0),
     ("mean_fill", mean_fill),
     ("median_fill", median_fill),
     ("custom_fill", fillConst (customValue cfg))]
  methods.foldl (fun acc m => if strategyEnabled cfg m.1 then m.2 acc else acc) d

theorem strategyEnabled_false (cfg : List (String × ConfigVal))
    (h : ∀ p ∈ cfg, p.2 ≠ ConfigVal.str "True") (m : String) :
    strategyEnabled cfg m = false := by
  unfold strategyEnabled cfgGet
  cases hf : cfg.find? fun p => p.1 = m with
  | none => rfl
  | some p =>
    have hp : p ∈ cfg := List.mem_of_find?_eq_some hf
    have hne := h p hp
    simp only [Option.map_some', Option.getD_some]
    cases hv : p.2 with
    | str s =>
      have : s ≠ "True" := by
        intro he
        exact hne (by rw [hv, he])
      simp [isTrueStr, this]
    | bool b => rfl
    | num q => rfl

/-- C10: a missing-data strategy runs exactly when its configuration
value is the exact string True (a boolean true or the lowercase string
does not count, since Python equality with a string is string equality),
and when no configured value is that string the frame passes through
the missing-data step unchanged. -/
theorem handle_missing_data_gate (cfg : List (String × ConfigVal)) (d : List MRow)
    (h : ∀ p ∈ cfg, p.2 ≠ ConfigVal.str "True") :
    handle_missing_data cfg d = d ∧
    (∀ c : List (String × ConfigVal), ∀ m : String, strategyEnabled c m = true ↔
      ((c.find? fun p => p.1 = m).map Prod.snd) = some (ConfigVal.str "True")) := by
  constructor
  · have hg := strategyEnabled_false cfg h
    simp [handle_missing_data, hg]
  · intro c m
    unfold strategyEnabled cfgGet
    cases hf : c.find? fun p => p.1 = m with
    | none => simp [isTrueStr]
    | some p =>
      simp only [Option.map_some', Option.getD_some]
      cases p.2 with
      | str s =>
        simp only [isTrueStr, beq_iff_eq, Option.some.injEq]
        constructor
        · intro he; rw [he]
        · intro he; cases he; rfl
      | bool b => simp [isTrueStr]
      | num q => simp [isTrueStr]

/-- Configuration in which strategies carry a boolean true, the
lowercase string true and the string False: none of them is the exact
string True. -/
def exCfg : List (String × ConfigVal) :=
  [("drop_nan", ConfigVal.bool true),
   ("forward_fill", ConfigVal.str "true"),
   ("zero_fill", ConfigVal.str "False")]

/-- Frame with one missing numeric value, used to witness that disabled
strategies leave the frame untouched. -/
def exFrame : List MRow :=
  [⟨0, "A", none, some 1, some 1, some 1, some 1⟩,
   ⟨1, "A", some 2, some 2, some 2, some 2, some 2⟩]

/-- Witness for the missing-data gate theorem: with a boolean true, a
lowercase true and a False string configured, the frame is unchanged. -/
theorem handle_missing_data_gate_witness :
    handle_missing_data exCfg exFrame = exFrame :=
  (handle_missing_data_gate exCfg exFrame (by decide)).1

end DataNgin

namespace Batch

/-!
Embedding of `BatchDownloadDatabentoFetcher.generate_batches`
(src/modules/fetcher/batch_download_databento_fetcher.py, lines 42-97).
Timestamps are integers counting nanoseconds, the resolution of
`pd.Timestamp`; one day, hour and minute are the corresponding
nanosecond counts, and the windows are returned as timestamp pairs (the
source formats them as strings for display, which preserves equality of
endpoints). The while loop of the source is modelled with explicit
fuel: a `none` result means the loop has not finished within the given
number of iterations, and a result that is `none` for every fuel is a
loop that never terminates.
-/

/-- ASCII lowercase of one character, as Python `str.lower()` acts on
the unit names involved here. -/
def lowerChar (c : Char) : Char :=
  if 65 ≤ c.toNat ∧ c.toNat ≤ 90 then Char.ofNat (c.toNat + 32) else c

/-- Lowercase of a string, modelling the `unit.lower()` call of the
source on ASCII unit names. -/
def strLower (s : String) : String :=
  String.mk (s.data.map lowerChar)

/-- Nanoseconds of one batching unit, embedding the unit dispatch of the
source: the lowercased unit must be daily, hourly or min, anything else
is a `ValueError`. -/
def unit_ticks (unit : String) : Option Int :=
  let u := strLower unit
  if u = "daily" then some 86400000000000
  else if u = "hourly" then some 3600000000000
  else if u = "min" then some 60000000000
  else none

/-- Runtime type of the `max_units_allowed` argument: a Python int or a
value of any other type (float, string, bool and so on), which the
source rejects with `type(x) != int`. -/
inductive PyNum where
  | int (n : Int)
  | nonInt
deriving DecidableEq, Repr

/-- Exceptions `generate_batches` can raise. -/
inductive BatchErr where
  | valueError
  | typeError
deriving DecidableEq, Repr

/-- Fuel-bounded while loop of `generate_batches`: while the current
timestamp is before the end, append a window reaching `delta` further
(clamped to the end) and continue from the window end; `none` means the
fuel was exhausted before the loop finished. -/
def batch_loop (endT delta : Int) : Nat → Int → Option (List (Int × Int))
  | 0, cur => if cur < endT then none else some []
  | fuel + 1, cur =>
    if cur < endT then
      let bend := if cur + delta > endT then endT else cur + delta
      (batch_loop endT delta fuel bend).map fun rest => (cur, bend) :: rest
    else some []

/-- Embedding of `generate_batches`: validate the unit, then reject a
non-integer `max_units_allowed` with a `TypeError` (there is no
positivity check in the source), then run the window loop with
delta = max_units_allowed * ticks(unit). -/
def generate_batches (fuel : Nat) (start_ts end_ts : Int) (unit : String)
    (max_units_allowed : PyNum) : Except BatchErr (Option (List (Int × Int))) :=
  match unit_ticks unit with
  | none => .error .valueError
  | some tpu =>
    match max_units_allowed with
    | .nonInt => .error .typeError
    | .int m => .ok (batch_loop end_ts (m * tpu) fuel start_ts)

theorem unit_ticks_pos (u : String) (t : Int) (h : unit_ticks u = some t) : 0 < t := by
  simp only [unit_ticks] at h
  by_cases h1 : strLower u = "daily"
  · simp [h1] at h; omega
  · by_cases h2 : strLower u = "hourly"
    · simp [h1, h2] at h; omega
    · by_cases h3 : strLower u = "min"
      · simp [h1, h2, h3] at h; omega
      · simp [h1, h2, h3] at h

theorem batch_loop_stop (endT delta : Int) (fuel : Nat) (cur : Int)
    (hnc : ¬ cur < endT) : batch_loop endT delta fuel cur = some [] := by
  cases fuel <;> simp [batch_loop, hnc]

theorem batch_loop_spec (endT delta : Int) (hd : 0 < delta) :
    ∀ (fuel : Nat) (cur : Int), (endT - cur).toNat ≤ fuel →
      ∃ ws : List (Int × Int),
        batch_loop endT delta fuel cur = some ws ∧
        List.Chain' (fun w1 w2 : Int × Int => w1.2 = w2.1) ws ∧
        (∀ w ∈ ws, w.1 < w.2 ∧ w.2 ≤ endT) ∧
        (cur < endT →
          ws.head?.map Prod.fst = some cur ∧ ws.getLast?.map Prod.snd = some endT) ∧
        (¬ cur < endT → ws = []) ∧
        ws.length = ((endT - cur).toNat + delta.toNat - 1) / delta.toNat ∧
        (∀ t : Int, cur ≤ t → t < endT → ∃ w ∈ ws, w.1 ≤ t ∧ t < w.2) := by
  intro fuel
  induction fuel with
  | zero =>
    intro cur hf
    have hnc : ¬ cur < endT := by omega
    refine ⟨[], batch_loop_stop endT delta 0 cur hnc, List.chain'_nil, ?_, ?_, ?_, ?_, ?_⟩
    · intro w hw; cases hw
    · intro h; exact absurd h hnc
    · intro _; rfl
    · have h0 : (endT - cur).toNat = 0 := by omega
      rw [h0]
      have : delta.toNat - 1 < delta.toNat := by omega
      simp [Nat.div_eq_of_lt this]
    · intro t ht1 ht2; exact absurd (lt_of_le_of_lt ht1 ht2) hnc
  | succ f ih =>
    intro cur hf
    by_cases hc : cur < endT
    · set bend := if cur + delta > endT then endT else cur + delta with hbend
      have hb1 : cur < bend := by rw [hbend]; split <;> omega
      have hb2 : bend ≤ endT := by rw [hbend]; split <;> omega
      have hf2 : (endT - bend).toNat ≤ f := by rw [hbend]; split <;> omega
      obtain ⟨ws', heq', hchain', hmem', hlt', hge', hlen', hcov'⟩ := ih bend hf2
      refine ⟨(cur, bend) :: ws', ?_, ?_, ?_, ?_, ?_, ?_, ?_⟩
      · simp only [batch_loop, if_pos hc]
        rw [← hbend, heq']
        rfl
      · rw [List.chain'_cons']
        refine ⟨?_, hchain'⟩
        intro b hb
        by_cases hbe : bend < endT
        · have hhd := (hlt' hbe).1
          rw [hb] at hhd
          simp only [Option.map_some', Option.some.injEq] at hhd
          exact hhd.symm
        · rw [hge' hbe] at hb
          cases hb
      · intro w hw
        rcases List.mem_cons.mp hw with h | h
        · rw [h]; exact ⟨hb1, hb2⟩
        · exact hmem' w h
      · intro _
        constructor
        · simp
        · by_cases hbe : bend < endT
          · have h2 := (hlt' hbe).2
            cases ws' with
            | nil => simp at h2
            | cons b t => rw [List.getLast?_cons_cons]; exact h2
          · rw [hge' hbe]
            have : bend = endT := by omega
            simp [this]
      · intro h; exact absurd hc h
      · simp only [List.length_cons, hlen']
        have hdnn : 0 < delta.toNat := by omega
        by_cases hgt : cur + delta > endT
        · have hbE : bend = endT := by rw [hbend, if_pos hgt]
          have hS1 : 1 ≤ (endT - cur).toNat := by omega
          have hSd : (endT - cur).toNat ≤ delta.toNat := by omega
          have e1 : (endT - bend).toNat = 0 := by omega
          have e2 : (endT - cur).toNat + delta.toNat - 1 =
              ((endT - cur).toNat - 1) + delta.toNat := by omega
          rw [e1, e2, Nat.add_div_right _ hdnn, Nat.zero_add]
          have h3 : delta.toNat - 1 < delta.toNat := by omega
          rw [Nat.div_eq_of_lt h3]
          have h4 : (endT - cur).toNat - 1 < delta.toNat := by omega
          rw [Nat.div_eq_of_lt h4]
        · have hbD : bend = cur + delta := by rw [hbend, if_neg hgt]
          have hSd : delta.toNat ≤ (endT - cur).toNat := by omega
          have e1 : (endT - bend).toNat = (endT - cur).toNat - delta.toNat := by omega
          have e2 : (endT - cur).toNat - delta.toNat + delta.toNat - 1 =
              ((endT - cur).toNat - 1) := by omega
          have e3 : (endT - cur).toNat + delta.toNat - 1 =
              ((endT - cur).toNat - 1) + delta.toNat := by omega
          rw [e1, e2, e3, Nat.add_div_right _ hdnn]
      · intro t ht1 ht2
        by_cases htb : t < bend
        · exact ⟨(cur, bend), List.mem_cons_self _ _, ht1, htb⟩
        · obtain ⟨w, hw, hw1, hw2⟩ := hcov' t (by omega) ht2
          exact ⟨w, List.mem_cons_of_mem _ hw, hw1, hw2⟩
    · refine ⟨[], batch_loop_stop endT delta (f + 1) cur hc, List.chain'_nil, ?_, ?_, ?_, ?_, ?_⟩
      · intro w hw; cases hw
      · intro h; exact absurd h hc
      · intro _; rfl
      · have h0 : (endT - cur).toNat = 0 := by omega
        rw [h0]
        have : delta.toNat - 1 < delta.toNat := by omega
        simp [Nat.div_eq_of_lt this]
      · intro t ht1 ht2; exact absurd (lt_of_le_of_lt ht1 ht2) hc

end Batch

namespace Batch

/-- C3: for a valid unit and a positive integer number of units, the
planner terminates (any fuel of at least the nanosecond span suffices)
and returns windows that are contiguous (each window starts where the
previous one ends), individually nonempty and clamped to the end, that
begin at the start and finish exactly at the end when the range is
nonempty, that are empty when start equals end, that jointly cover
every instant of the range (with contiguity this also makes them
non-overlapping), and whose count is the ceiling of the span divided by
the window length. -/
theorem generate_batches_spec (start_ts end_ts : Int) (unit : String) (tpu : Int)
    (hu : unit_ticks unit = some tpu) (m : Int) (hm : 0 < m) (fuel : Nat)
    (hfuel : (end_ts - start_ts).toNat ≤ fuel) :
    ∃ ws : List (Int × Int),
      generate_batches fuel start_ts end_ts unit (PyNum.int m) = .ok (some ws) ∧
      List.Chain' (fun w1 w2 : Int × Int => w1.2 = w2.1) ws ∧
      (∀ w ∈ ws, w.1 < w.2 ∧ w.2 ≤ end_ts) ∧
      (start_ts < end_ts →
        ws.head?.map Prod.fst = some start_ts ∧
        ws.getLast?.map Prod.snd = some end_ts) ∧
      (start_ts = end_ts → ws = []) ∧
      ws.length =
        ((end_ts - start_ts).toNat + (m * tpu).toNat - 1) / (m * tpu).toNat ∧
      (∀ t : Int, start_ts ≤ t → t < end_ts → ∃ w ∈ ws, w.1 ≤ t ∧ t < w.2) := by
  have htpu : 0 < tpu := unit_ticks_pos unit tpu hu
  have hd : 0 < m * tpu := mul_pos hm htpu
  obtain ⟨ws, heq, hchain, hmem, hlt, hge, hlen, hcov⟩ :=
    batch_loop_spec end_ts (m * tpu) hd fuel start_ts hfuel
  refine ⟨ws, ?_, hchain, hmem, hlt, ?_, hlen, hcov⟩
  · simp only [generate_batches, hu, heq]
  · intro h
    exact hge (by omega)

/-- Witness for the planner theorem: nine days split into three-day
windows, in nanoseconds; the count is the ceiling 3. -/
theorem generate_batches_spec_witness :
    ∃ ws : List (Int × Int),
      generate_batches 777600000000000 0 777600000000000 "daily" (PyNum.int 3) =
        .ok (some ws) ∧ ws.length = 3 := by
  obtain ⟨ws, heq, _, _, _, _, hlen, _⟩ :=
    generate_batches_spec 0 777600000000000 "daily" 86400000000000 (by decide) 3
      (by decide) 777600000000000 (by decide)
  exact ⟨ws, heq, by rw [hlen]; decide⟩

/-- C8 counterexample: with start before end, a valid unit and the
integer zero as the number of units per window, the source raises no
exception (the only checks are the unit dispatch and `type(x) != int`),
and the loop makes no progress: for this fuel, and in fact for every
fuel, it has not terminated. -/
theorem generate_batches_zero_not_rejected :
    generate_batches 5 0 1 "daily" (PyNum.int 0) = .ok none := by rfl

theorem batch_loop_nonpos (endT delta : Int) (hd : delta ≤ 0) :
    ∀ (fuel : Nat) (cur : Int), cur < endT → batch_loop endT delta fuel cur = none := by
  intro fuel
  induction fuel with
  | zero =>
    intro cur hc
    simp [batch_loop, hc]
  | succ f ih =>
    intro cur hc
    have hng : ¬ cur + delta > endT := by omega
    simp only [batch_loop, if_pos hc, if_neg hng]
    rw [ih (cur + delta) (by omega)]
    rfl

/-- C8 amended: the planner raises a `ValueError` for an unknown unit
and a `TypeError` for a non-integer number of units, before producing
any window; but an integer that is zero or negative is not rejected,
and with start before end the loop then never terminates, however much
fuel it is given; only a positive integer makes the planner terminate. -/
theorem generate_batches_validation (fuel : Nat) (s e : Int) (u : String) (tpu : Int)
    (m : Int) (hu : unit_ticks u = some tpu) :
    generate_batches fuel s e u PyNum.nonInt = .error BatchErr.typeError ∧
    (∀ u2 : String, unit_ticks u2 = none → ∀ mua : PyNum,
      generate_batches fuel s e u2 mua = .error BatchErr.valueError) ∧
    (s < e → m ≤ 0 → generate_batches fuel s e u (PyNum.int m) = .ok none) ∧
    (0 < m → (e - s).toNat ≤ fuel →
      ∃ ws, generate_batches fuel s e u (PyNum.int m) = .ok (some ws)) := by
  refine ⟨?_, ?_, ?_, ?_⟩
  · simp [generate_batches, hu]
  · intro u2 h2 mua
    simp [generate_batches, h2]
  · intro hse hm
    have htpu : 0 < tpu := unit_ticks_pos u tpu hu
    have hdn : m * tpu ≤ 0 := mul_nonpos_iff.mpr (Or.inr ⟨hm, le_of_lt htpu⟩)
    simp only [generate_batches, hu]
    rw [batch_loop_nonpos e (m * tpu) hdn fuel s hse]
  · intro hm hfuel
    obtain ⟨ws, heq, _⟩ := batch_loop_spec e (m * tpu)
      (mul_pos hm (unit_ticks_pos u tpu hu)) fuel s hfuel
    exact ⟨ws, by simp only [generate_batches, hu, heq]⟩

/-- Witness for the validation theorem: a float-typed argument raises a
`TypeError`, an unknown unit raises a `ValueError`, the integer zero is
accepted and loops forever, and the integer two terminates. -/
theorem generate_batches_validation_witness :
    generate_batches 7 0 2 "daily" PyNum.nonInt = .error BatchErr.typeError ∧
    generate_batches 7 0 2 "weekly" (PyNum.int 2) = .error BatchErr.valueError ∧
    generate_batches 7 0 2 "daily" (PyNum.int 0) = .ok none ∧
    (∃ ws, generate_batches 7 0 2 "daily" (PyNum.int 2) = .ok (some ws)) := by
  have h := generate_batches_validation 7 0 2 "daily" 86400000000000 0 (by decide)
  have h2 := generate_batches_validation 7 0 2 "daily" 86400000000000 2 (by decide)
  exact ⟨h.1, h.2.1 "weekly" (by decide) (PyNum.int 2), h.2.2.1 (by decide) (by decide),
    h2.2.2.2 (by decide) (by decide)⟩

end Batch

namespace WS

/-!
Embedding of `DatabentoFetcher.stream_data`
(data/modules/databento_ws_fetcher.py, lines 104-139) in the scenario of
the claim: every connection attempt fails. Under that hypothesis the
loop is deterministic: each iteration tries to connect (the client is
always null, since a failed attempt leaves it null), the exception
handler finds the client null, and either increments the retry counter
and sleeps `retry_interval * retry_count`, or, when the counter has
reached `max_retries`, clears the reconnect flag and leaves the loop.
The trace below records those observable events in order; no record is
ever yielded because the body never reaches the record loop.
-/

/-- Observable event of the streaming loop: a connection attempt, a
backoff sleep of the given duration, or the final transition to the
terminal disconnected state. -/
inductive WSEvent where
  | connectAttempt
  | wait (t : Nat)
  | disconnected
deriving DecidableEq, Repr

/-- Trace of `stream_data` from a given retry counter when every
connection attempt raises: attempt, then either a backoff sleep of
`retry_interval * (retry_count + 1)` and the continuation with the
incremented counter, or the terminal disconnection when the counter has
reached `max_retries`. -/
def stream_data_always_fail (max_retries retry_interval retry_count : Nat) :
    List WSEvent :=
  WSEvent.connectAttempt ::
    (if retry_count < max_retries then
      WSEvent.wait (retry_interval * (retry_count + 1)) ::
        stream_data_always_fail max_retries retry_interval (retry_count + 1)
    else [WSEvent.disconnected])
termination_by max_retries - retry_count

/-- Backoff sleeps of a trace, in order. -/
def waits (evs : List WSEvent) : List Nat :=
  evs.filterMap fun e =>
    match e with
    | WSEvent.wait t => some t
    | _ => none

theorem stream_data_always_fail_events (max_retries retry_interval : Nat) :
    ∀ (n rc : Nat), max_retries - rc = n → rc ≤ max_retries →
      (stream_data_always_fail max_retries retry_interval rc).count
          WSEvent.connectAttempt = (max_retries - rc) + 1 ∧
      waits (stream_data_always_fail max_retries retry_interval rc) =
        (List.range' (rc + 1) (max_retries - rc)).map (fun k => retry_interval * k) ∧
      (stream_data_always_fail max_retries retry_interval rc).getLast? =
        some WSEvent.disconnected := by
  intro n
  induction n with
  | zero =>
    intro rc hn hle
    have hrc : rc = max_retries := by omega
    have hnc : ¬ rc < max_retries := by omega
    unfold stream_data_always_fail
    rw [if_neg hnc]
    refine ⟨?_, ?_, ?_⟩
    · simp [List.count_cons, hn]
    · simp [waits, hn]
    · rfl
  | succ k ih =>
    intro rc hn hle
    have hc : rc < max_retries := by omega
    obtain ⟨ih1, ih2, ih3⟩ := ih (rc + 1) (by omega) (by omega)
    unfold stream_data_always_fail
    rw [if_pos hc]
    refine ⟨?_, ?_, ?_⟩
    · simp only [List.count_cons, ih1]
      have : max_retries - rc = (max_retries - (rc + 1)) + 1 := by omega
      simp [this]
    · simp only [waits, List.filterMap_cons] at ih2 ⊢
      rw [ih2]
      have : max_retries - rc = (max_retries - (rc + 1)) + 1 := by omega
      rw [this, List.range'_succ]
      rfl
    · rw [List.getLast?_cons_cons]
      rcases hl : stream_data_always_fail max_retries retry_interval (rc + 1) with _ | ⟨a, t⟩
      · rw [hl] at ih3; cases ih3
      · rw [hl] at ih3
        rw [List.getLast?_cons_cons]
        exact ih3

/-- C6: when every connection attempt fails, the loop makes exactly
`max_retries` reconnect attempts after the initial one (so
`max_retries + 1` connection attempts in all), the backoff sleep before
the n-th reconnect attempt is `retry_interval * n` for n = 1 .. max
(linear backoff, never more than `max_retries` consecutive retries),
and the trace ends in the terminal disconnected state, producing no
records. -/
theorem stream_reconnect_bound (max_retries retry_interval : Nat) :
    (stream_data_always_fail max_retries retry_interval 0).count
        WSEvent.connectAttempt = max_retries + 1 ∧
    waits (stream_data_always_fail max_retries retry_interval 0) =
      (List.range' 1 max_retries).map (fun n => retry_interval * n) ∧
    (waits (stream_data_always_fail max_retries retry_interval 0)).length =
      max_retries ∧
    (stream_data_always_fail max_retries retry_interval 0).getLast? =
      some WSEvent.disconnected := by
  obtain ⟨h1, h2, h3⟩ :=
    stream_data_always_fail_events max_retries retry_interval max_retries 0 (by omega)
      (by omega)
  simp only [Nat.sub_zero] at h1 h2
  refine ⟨h1, h2, ?_, h3⟩
  rw [h2, List.length_map, List.length_range']

end WS

namespace DateRange

/-!
Embedding of `determine_date_range` (utils/dynamic_loader.py, lines
100-134). Dates are modelled as integers counting days; the
configuration values and the latest persisted date are optional, and
the current day stands for `datetime.now()`.
-/

/-- Exception `determine_date_range` can raise. -/
inductive DateErr where
  | valueError
deriving DecidableEq, Repr

/-- Start-date resolution of the source: the explicit configuration
value when present, otherwise one day past the latest persisted date,
otherwise a `ValueError`. -/
def start_date_of (cfg_start : Option Int) (latest : Option Int) : Except DateErr Int :=
  match cfg_start with
  | some s => .ok s
  | none =>
    match latest with
    | some d => .ok (d + 1)
    | none => .error DateErr.valueError

/-- Embedding of `determine_date_range`: resolve the start as above,
then take the configured end when present and the current day
otherwise. -/
def determine_date_range (cfg_start cfg_end : Option Int) (latest : Option Int)
    (today : Int) : Except DateErr (Int × Int) :=
  match start_date_of cfg_start latest with
  | .error e => .error e
  | .ok s => .ok (s, cfg_end.getD today)

/-- C7 counterexample: with no configured start and no persisted date
the source raises a `ValueError`; it does not fall back to any
configured default start. -/
theorem determine_date_range_no_default :
    determine_date_range none (some 20100) none 20000 = .error DateErr.valueError := rfl

/-- C7 amended: the effective start is the explicit configuration value
when present, otherwise one day past the latest persisted date;
when both are absent a `ValueError` is raised (there is no configured
default start). The end is the configured value when present, otherwise
the current day. -/
theorem determine_date_range_fallback (cfg_end : Option Int) (latest : Option Int)
    (today s d : Int) :
    determine_date_range (some s) cfg_end latest today = .ok (s, cfg_end.getD today) ∧
    determine_date_range none cfg_end (some d) today = .ok (d + 1, cfg_end.getD today) ∧
    determine_date_range none cfg_end none today = .error DateErr.valueError ∧
    determine_date_range (some s) none latest today = .ok (s, today) := by
  refine ⟨rfl, rfl, rfl, rfl⟩

end DateRange

namespace Ins

/-!
Embedding of `TimescaleDBInserter.insert_data`
(src/modules/inserter/timescaledb_inserter.py, lines 64-129). The
inserter issues one `INSERT ... ON CONFLICT DO NOTHING` statement per
row through `executemany` against a table whose primary key is
`(time, symbol)`; the database engine that executes the statement is
external to the repository, so its conflict behaviour is modelled from
the specification. The schema and table existence checks of the source
query the database catalog and are assumed to pass for the modelled
target table.
-/

/-- Persisted row: the `(time, symbol)` key and the remaining columns
as named values (the column set is taken from the row itself,
schema-on-write). -/
structure DBRow where
  time : Int
  symbol : String
  cols : List (String × Rat)
deriving DecidableEq, Inhabited, Repr

/-- Modelled from the spec: execution by the database of one
`INSERT ... ON CONFLICT DO NOTHING` statement against a table keyed by
`(time, symbol)` — the row is appended when its key is absent, and the
statement does nothing (no error, no merge, no overwrite) when a row
with the same key is already present. -/
def insertOnConflictDoNothing (table : List DBRow) (r : DBRow) : List DBRow :=
  if table.any fun t => decide (t.time = r.time ∧ t.symbol = r.symbol) then table
  else table ++ [r]

/-- Exceptions `insert_data` can raise: the missing-connection guard
and the out-of-range access `data[0]` on an empty row list. -/
inductive InsErr where
  | runtimeError
  | indexError
deriving DecidableEq, Repr

/-- Embedding of `insert_data`: fail when no connection is established,
fail on an empty row list (the source reads `data[0]` to derive the
column set), otherwise execute the upsert statement once per row, in
order. -/
def insert_data (connected : Bool) (table : List DBRow) (data : List DBRow) :
    Except InsErr (List DBRow) :=
  if ¬ connected then .error InsErr.runtimeError
  else if data.isEmpty then .error InsErr.indexError
  else .ok (data.foldl insertOnConflictDoNothing table)

theorem insertOne_key_present (table : List DBRow) (r : DBRow)
    (h : (table.any fun t => decide (t.time = r.time ∧ t.symbol = r.symbol)) = true) :
    insertOnConflictDoNothing table r = table := by
  rw [insertOnConflictDoNothing, if_pos h]

theorem any_key_mono (table : List DBRow) (x r : DBRow)
    (h : (table.any fun t => decide (t.time = r.time ∧ t.symbol = r.symbol)) = true) :
    ((insertOnConflictDoNothing table x).any fun t =>
      decide (t.time = r.time ∧ t.symbol = r.symbol)) = true := by
  unfold insertOnConflictDoNothing
  split
  · exact h
  · rw [List.any_append, h]
    rfl

theorem any_key_foldl_mono (data : List DBRow) :
    ∀ (table : List DBRow) (r : DBRow),
    (table.any fun t => decide (t.time = r.time ∧ t.symbol = r.symbol)) = true →
    ((data.foldl insertOnConflictDoNothing table).any fun t =>
      decide (t.time = r.time ∧ t.symbol = r.symbol)) = true := by
  induction data with
  | nil => intro table r h; exact h
  | cons a rest ih =>
    intro table r h
    exact ih (insertOnConflictDoNothing table a) r (any_key_mono table a r h)

theorem key_present_after_insert (data : List DBRow) :
    ∀ (table : List DBRow) (r : DBRow), r ∈ data →
    ((data.foldl insertOnConflictDoNothing table).any fun t =>
      decide (t.time = r.time ∧ t.symbol = r.symbol)) = true := by
  induction data with
  | nil => intro table r hr; cases hr
  | cons a rest ih =>
    intro table r hr
    rcases List.mem_cons.mp hr with h | h
    · subst h
      rw [List.foldl_cons]
      apply any_key_foldl_mono rest
      unfold insertOnConflictDoNothing
      split
      · assumption
      · rw [List.any_append]
        simp
    · exact ih (insertOnConflictDoNothing table a) r h

theorem foldl_insert_stable (data : List DBRow) (table : List DBRow)
    (h : ∀ r ∈ data, (table.any fun t =>
      decide (t.time = r.time ∧ t.symbol = r.symbol)) = true) :
    data.foldl insertOnConflictDoNothing table = table := by
  induction data with
  | nil => rfl
  | cons a rest ih =>
    have ha := insertOne_key_present table a (h a (List.mem_cons_self _ _))
    simp only [List.foldl_cons, ha]
    exact ih fun r hr => h r (List.mem_cons_of_mem _ hr)

/-- C5: inserting a nonempty row set twice is idempotent: the first
call persists a table, the second call succeeds and leaves that table
exactly unchanged (so the row count is unchanged), and on any single
row whose key is already present the upsert statement does nothing. -/
theorem insert_data_idempotent (table : List DBRow) (data : List DBRow)
    (hne : data ≠ []) :
    ∃ t1 : List DBRow,
      insert_data true table data = .ok t1 ∧
      insert_data true t1 data = .ok t1 ∧
      (∀ r : DBRow, (t1.any fun t =>
        decide (t.time = r.time ∧ t.symbol = r.symbol)) = true →
        insertOnConflictDoNothing t1 r = t1) := by
  refine ⟨data.foldl insertOnConflictDoNothing table, ?_, ?_, ?_⟩
  · simp [insert_data, List.isEmpty_iff, hne]
  · have hstable := foldl_insert_stable data (data.foldl insertOnConflictDoNothing table)
      (fun r hr => key_present_after_insert data table r hr)
    simp [insert_data, List.isEmpty_iff, hne, hstable]
  · intro r hr
    exact insertOne_key_present _ r hr

/-- Witness for the idempotence theorem: one row inserted twice into an
empty table. -/
theorem insert_data_idempotent_witness :
    ∃ t1 : List DBRow,
      insert_data true [] [⟨0, "ES", []⟩] = .ok t1 ∧
      insert_data true t1 [⟨0, "ES", []⟩] = .ok t1 ∧
      (∀ r : DBRow, (t1.any fun t =>
        decide (t.time = r.time ∧ t.symbol = r.symbol)) = true →
        insertOnConflictDoNothing t1 r = t1) :=
  insert_data_idempotent [] [⟨0, "ES", []⟩] (by decide)

end Ins

namespace Orch

/-!
Embedding of `Orchestrator.retrieve_and_process_data` and the
per-instrument portion of `Orchestrator.run` (src/orchestrator.py,
lines 56-207). The four pipeline stages are dynamically loaded
implementations, so they appear here as parameters; each stage call is
indexed by the instrument whose task makes it, and a stage that raises
is a stage returning an error value. The per-instrument coroutine
catches every stage exception: the inner handlers record a stage error
metric and re-raise, the outer handler logs and swallows, and the
`finally` block closes the inserter connection. Under the cooperative
scheduler the tasks share no state (each task re-establishes the
database connection after its fetch suspension point and runs its
synchronous tail atomically), so the gathered run is modelled as the
concatenation of the per-instrument traces, after which the
last-successful-run timestamp is recorded unconditionally. -/

/-- Stage label used by the error metric of the source; both inserts
are labelled as the inserter stage. -/
inductive Stage where
  | fetcher
  | inserter
  | cleaner
deriving DecidableEq, Repr

/-- Observable item of one instrument task: a stage error metric, a
persisted insert into the named table, the outer handler catching the
failure, or the final close of the connection. -/
inductive EItem where
  | stageError (st : Stage)
  | inserted (table : String) (rows : List Ins.DBRow)
  | caught
  | closed
deriving DecidableEq, Repr

/-- Dynamically loaded stage implementations, indexed by the instrument
of the calling task; an error value models a raised exception. -/
structure Stages where
  fetch_data : String → Except String (List Ins.DBRow)
  insert_data : String → String → List Ins.DBRow → Except String Unit
  clean : String → List Ins.DBRow → Except String (List Ins.DBRow)

/-- Items of one instrument task, in order: fetch, raw insert, clean,
clean insert, each stage error recorded and the failure caught by the
outer handler; the connection close always happens last. -/
def pipeline_items (st : Stages) (s : String) : List EItem :=
  (match st.fetch_data s with
   | .error _ => [EItem.stageError Stage.fetcher, EItem.caught]
   | .ok raw =>
     match st.insert_data s "raw" raw with
     | .error _ => [EItem.stageError Stage.inserter, EItem.caught]
     | .ok _ =>
       EItem.inserted "raw" raw ::
         (match st.clean s raw with
          | .error _ => [EItem.stageError Stage.cleaner, EItem.caught]
          | .ok cleaned =>
            match st.insert_data s "clean" cleaned with
            | .error _ => [EItem.stageError Stage.inserter, EItem.caught]
            | .ok _ => [EItem.inserted "clean" cleaned]))
  ++ [EItem.closed]

/-- Embedding of `retrieve_and_process_data`: the trace of one
instrument task, every item tagged with that instrument; the function
is total — no exception escapes the task. -/
def retrieve_and_process_data (st : Stages) (s : String) : List (String × EItem) :=
  (pipeline_items st s).map fun it => (s, it)

/-- Embedding of the gather-and-record tail of `Orchestrator.run`: all
instrument tasks run and their traces are collected, then the
last-successful-run timestamp is recorded (the boolean), whatever the
individual outcomes were. -/
def run (st : Stages) (symbols : List String) : List (String × EItem) × Bool :=
  ((symbols.map fun s => retrieve_and_process_data st s).join, true)

theorem retrieve_tagged (st : Stages) (s : String) :
    ∀ e ∈ retrieve_and_process_data st s, e.1 = s := by
  intro e he
  rw [retrieve_and_process_data] at he
  obtain ⟨it, _, rfl⟩ := List.mem_map.mp he
  rfl

theorem run_events_mem (st : Stages) (symbols : List String) (e : String × EItem) :
    e ∈ (run st symbols).1 ↔
      ∃ s ∈ symbols, e ∈ retrieve_and_process_data st s := by
  simp only [run, List.mem_join, List.mem_map]
  constructor
  · rintro ⟨l, ⟨s, hs, rfl⟩, he⟩
    exact ⟨s, hs, he⟩
  · rintro ⟨s, hs, he⟩
    exact ⟨retrieve_and_process_data st s, ⟨s, hs, rfl⟩, he⟩

theorem run_filter_eq_task (st : Stages) (symbols : List String) (b : String)
    (hnd : symbols.Nodup) (hb : b ∈ symbols) :
    (run st symbols).1.filter (fun e => decide (e.1 = b)) =
      retrieve_and_process_data st b := by
  simp only [run]
  induction symbols with
  | nil => cases hb
  | cons s rest ih =>
    simp only [List.map_cons, List.join_cons, List.filter_append]
    by_cases hbs : s = b
    · subst hbs
      have h1 : (retrieve_and_process_data st s).filter (fun e => decide (e.1 = s)) =
          retrieve_and_process_data st s := by
        apply List.filter_eq_self.mpr
        intro e he
        simp [retrieve_tagged st s e he]
      have hbr : s ∉ rest := (List.nodup_cons.mp hnd).1
      have h2 : ((rest.map fun s2 => retrieve_and_process_data st s2).join).filter
          (fun e => decide (e.1 = s)) = [] := by
        apply List.filter_eq_nil_iff.mpr
        intro e he
        obtain ⟨l, hl, hel⟩ := List.mem_join.mp he
        obtain ⟨s2, hs2, rfl⟩ := List.mem_map.mp hl
        have htag := retrieve_tagged st s2 e hel
        simp only [decide_eq_true_eq]
        intro hcon
        rw [htag] at hcon
        rw [hcon] at hs2
        exact hbr hs2
      rw [h1, h2, List.append_nil]
    · have hb2 : b ∈ rest := by
        rcases List.mem_cons.mp hb with h | h
        · exact absurd h.symm hbs
        · exact h
      have h1 : (retrieve_and_process_data st s).filter (fun e => decide (e.1 = b)) = [] := by
        apply List.filter_eq_nil_iff.mpr
        intro e he
        have htag := retrieve_tagged st s e he
        simp only [decide_eq_true_eq]
        intro hcon
        rw [htag] at hcon
        exact hbs hcon
      rw [h1, List.nil_append]
      exact ih (List.nodup_cons.mp hnd).2 hb2

/-- C4: every stage exception is caught inside its instrument task (the
task trace is a total function and ends with the connection close), the
run records the last-successful-run flag whatever the stage outcomes
are, the events of one instrument are exactly its own task trace and do
not depend on how the stages behave for other instruments, a failing
fetch always records a fetcher error metric for that instrument, and a
fully successful pipeline always persists that instrument's cleaned
rows. -/
theorem orchestrator_failure_isolation (st st2 : Stages) (symbols : List String)
    (hnd : symbols.Nodup) (b : String) (hb : b ∈ symbols)
    (hf : st.fetch_data b = st2.fetch_data b)
    (hi : st.insert_data b = st2.insert_data b)
    (hc : st.clean b = st2.clean b) :
    (run st symbols).2 = true ∧
    ((run st symbols).1.filter fun e => decide (e.1 = b)) =
      retrieve_and_process_data st b ∧
    ((run st symbols).1.filter fun e => decide (e.1 = b)) =
      ((run st2 symbols).1.filter fun e => decide (e.1 = b)) ∧
    (∀ s ∈ symbols, ∀ err, st.fetch_data s = .error err →
      (s, EItem.stageError Stage.fetcher) ∈ (run st symbols).1) ∧
    (∀ s ∈ symbols, ∀ raw cleaned, st.fetch_data s = .ok raw →
      st.insert_data s "raw" raw = .ok () → st.clean s raw = .ok cleaned →
      st.insert_data s "clean" cleaned = .ok () →
      (s, EItem.inserted "clean" cleaned) ∈ (run st symbols).1) ∧
    (∀ s ∈ symbols, (s, EItem.closed) ∈ (run st symbols).1) := by
  refine ⟨rfl, run_filter_eq_task st symbols b hnd hb, ?_, ?_, ?_, ?_⟩
  · rw [run_filter_eq_task st symbols b hnd hb, run_filter_eq_task st2 symbols b hnd hb]
    simp only [retrieve_and_process_data, pipeline_items, hf, hi, hc]
  · intro s hs err herr
    refine (run_events_mem st symbols _).mpr ⟨s, hs, ?_⟩
    simp only [retrieve_and_process_data, pipeline_items, herr]
    simp
  · intro s hs raw cleaned h1 h2 h3 h4
    refine (run_events_mem st symbols _).mpr ⟨s, hs, ?_⟩
    simp only [retrieve_and_process_data, pipeline_items, h1, h2, h3, h4]
    simp
  · intro s hs
    refine (run_events_mem st symbols _).mpr ⟨s, hs, ?_⟩
    simp only [retrieve_and_process_data, pipeline_items]
    rcases st.fetch_data s with _ | raw
    · simp
    · rcases st.insert_data s "raw" raw with _ | u
      · simp
      · rcases st.clean s raw with _ | cleaned
        · simp
        · rcases st.insert_data s "clean" cleaned with _ | u2 <;> simp

/-- Stage functions of the witness: instrument A fails at fetch,
instrument B succeeds end to end with one cleaned row. -/
def exStages : Stages :=
  { fetch_data := fun s => if s = "A" then .error "boom" else .ok [⟨0, s, []⟩]
    insert_data := fun _ _ _ => .ok ()
    clean := fun s _ => .ok [⟨0, s, [("back_adjusted_close", 1)]⟩] }

/-- Stage functions identical on instrument B but with A fully
succeeding. -/
def exStages2 : Stages :=
  { fetch_data := fun s => if s = "A" then .ok [] else .ok [⟨0, s, []⟩]
    insert_data := fun _ _ _ => .ok ()
    clean := fun s _ => .ok [⟨0, s, [("back_adjusted_close", 1)]⟩] }

/-- Witness for the isolation theorem: with A failing at fetch and B
succeeding, the run records the flag, B's events equal B's solo trace
and are the same as in a run where A succeeds, A's fetcher error metric
is recorded, and B's cleaned rows are persisted. -/
theorem orchestrator_failure_isolation_witness :
    (run exStages ["A", "B"]).2 = true ∧
    ((run exStages ["A", "B"]).1.filter fun e => decide (e.1 = "B")) =
      retrieve_and_process_data exStages "B" ∧
    ((run exStages ["A", "B"]).1.filter fun e => decide (e.1 = "B")) =
      ((run exStages2 ["A", "B"]).1.filter fun e => decide (e.1 = "B")) ∧
    ("A", EItem.stageError Stage.fetcher) ∈ (run exStages ["A", "B"]).1 ∧
    ("B", EItem.inserted "clean" [⟨0, "B", [("back_adjusted_close", 1)]⟩]) ∈
      (run exStages ["A", "B"]).1 := by
  have hfb : exStages.fetch_data "B" = exStages2.fetch_data "B" := by
    simp [exStages, exStages2]
  have hib : exStages.insert_data "B" = exStages2.insert_data "B" := rfl
  have hcb : exStages.clean "B" = exStages2.clean "B" := rfl
  obtain ⟨h1, h2, h3, h4, h5, _⟩ :=
    orchestrator_failure_isolation exStages exStages2 ["A", "B"] (by decide) "B"
      (by decide) hfb hib hcb
  refine ⟨h1, h2, h3, ?_, ?_⟩
  · exact h4 "A" (by decide) "boom" (by simp [exStages])
  · exact h5 "B" (by decide) [⟨0, "B", []⟩] [⟨0, "B", [("back_adjusted_close", 1)]⟩]
      (by simp [exStages]) rfl rfl rfl

end Orch
